import Mathlib

/-!
# Identity store and token helpers of the auth backend

A shallow embedding of `api/utils/database.js` and `api/utils/auth.js`.

* JavaScript values are the flat type `JVal`; objects are association lists
  observed through property access (`Obj.get`), so that an absent key and a key
  holding `undefined` read the same, exactly as `JSON.stringify` followed by
  `JSON.parse` treats them.
* The built-in `String.prototype.toLowerCase` is a parameter, `toLowerCase`, of every
  definition that lower-cases; the theorems hold for every such function.
* The backing file `data/users.json` is a `File`: the parsed array under its `users`
  key, or a text that does not parse.  Every call receives an `Env` with the outcome
  of the file read and write, the clock readings and the random draw made during the
  call.
* Thrown exceptions are the `Except.error` results.
-/

namespace AuthBackend

/-! ## Values and objects -/

/-- A JavaScript value as it can occur in a field of a record.  Arrays and
nested objects are kept as `composite`, labelled by their JSON text. -/
inductive JVal where
  | undefined
  | null
  | bool (b : Bool)
  | num (n : Int)
  | str (s : String)
  | composite (json : String)
  deriving DecidableEq

/-- A JavaScript object: its own enumerable properties. -/
abbrev Obj := List (String × JVal)

namespace Obj

/-- Property access `o[k]`: `undefined` when the key is absent. -/
def get (k : String) : Obj → JVal
  | [] => JVal.undefined
  | (k', v) :: rest => if k' = k then v else get k rest

/-- Whether `k` is an own property of the object. -/
def hasKey (k : String) : Obj → Bool
  | [] => false
  | (k', _) :: rest => if k' = k then true else hasKey k rest

/-- The object without property `k` (the rest pattern `{ k, ...rest } = o`). -/
def del (k : String) : Obj → Obj
  | [] => []
  | (k', v) :: rest => if k' = k then del k rest else (k', v) :: del k rest

/-- Assignment of one property, `{ ...o, k: v }`. -/
def set (k : String) (v : JVal) (o : Obj) : Obj := (k, v) :: del k o

/-- Object spread `{ ...a, ...b }`: every property of `b` is assigned onto `a`. -/
def spread (a : Obj) : Obj → Obj
  | [] => a
  | (k, v) :: rest => set k v (spread a rest)

end Obj

/-- Strict equality `x === y` between a field read from a freshly parsed file
and an argument: arrays and objects are compared by reference, hence unequal. -/
def strictEq : JVal → JVal → Bool
  | JVal.undefined, JVal.undefined => true
  | JVal.null, JVal.null => true
  | JVal.bool a, JVal.bool b => a == b
  | JVal.num a, JVal.num b => a == b
  | JVal.str a, JVal.str b => a == b
  | _, _ => false

/-- The error values thrown by the two modules. -/
inductive Err where
  | userAlreadyExists
  | userNotFound
  | typeError
  | invalidToken
  deriving DecidableEq

/-- The `message` of a thrown error. -/
def Err.message : Err → String
  | Err.userAlreadyExists => "User already exists"
  | Err.userNotFound => "User not found"
  | Err.typeError => "TypeError"
  | Err.invalidToken => "Invalid token"

/-- The method call `v.toLowerCase()`: a `TypeError` unless `v` is a string, and the
built-in `toLowerCase` applied to it when it is. -/
def callToLowerCase (toLowerCase : String → String) : JVal → Except Err String
  | JVal.str s => Except.ok (toLowerCase s)
  | _ => Except.error Err.typeError

/-- The method `String.prototype.substr(start, length)`, for non-negative arguments. -/
def substr (s : String) (start length : Nat) : String :=
  String.mk ((s.data.drop start).take length)

/-! ## database.js -/

/-- A list of records: the array under `users`. -/
abbrev Store := List Obj

/-- The backing file as a read finds it. -/
inductive File where
  /-- The text is valid JSON; `users` is the array under its `users` key (`[]` without one). -/
  | parsed (users : Store)
  /-- The file is missing, empty, cut short or otherwise not valid JSON. -/
  | unparsable
  deriving DecidableEq

/-- The value of `db.users || []` after `JSON.parse`, and `[]` when parsing throws. -/
def File.users : File → Store
  | File.parsed users => users
  | File.unparsable => []

/-- How the call `fs.writeFile(DB_FILE, text)` ends.  The file is opened for writing
(which empties it), the text is written, the file is closed; the text is a single JSON
object, so none of its proper prefixes parses. -/
inductive WriteOutcome where
  /-- The promise resolves: the file holds the text. -/
  | written
  /-- The promise rejects before the file is opened: the file is as it was. -/
  | failedUntouched
  /-- The promise rejects after the file was emptied and before the whole text was in. -/
  | failedTruncated
  /-- The promise rejects after the whole text was in. -/
  | failedComplete
  deriving DecidableEq

/-- What one call observes of the outside world. -/
structure Env where
  /-- Whether `fs.readFile` resolves. -/
  readOk : Bool
  /-- How `fs.writeFile` ends, when the call writes. -/
  write : WriteOutcome
  /-- The value of `Date.now()`. -/
  now : Nat
  /-- The value of `Math.random().toString(36)`. -/
  random : String
  /-- The first `new Date().toISOString()` of the call. -/
  iso1 : String
  /-- The second `new Date().toISOString()` of the call. -/
  iso2 : String
  deriving DecidableEq

/-- The function `getAllUsers`: the stored array, or `[]` when reading or parsing throws. -/
def getAllUsers (env : Env) (file : File) : List Obj :=
  if env.readOk then file.users else []

/-- The function `saveUsers`: the boolean it returns and the file afterwards. -/
def saveUsers (env : Env) (file : File) (users : List Obj) : Bool × File :=
  match env.write with
  | WriteOutcome.written => (true, File.parsed users)
  | WriteOutcome.failedUntouched => (false, file)
  | WriteOutcome.failedTruncated => (false, File.unparsable)
  | WriteOutcome.failedComplete => (false, File.parsed users)

/-- The callback `user => user.email.toLowerCase() === email.toLowerCase()`. -/
def emailMatches (toLowerCase : String → String) (email : JVal) (user : Obj) :
    Except Err Bool := do
  let a ← callToLowerCase toLowerCase (user.get "email")
  let b ← callToLowerCase toLowerCase email
  pure (a == b)

/-- The method `Array.prototype.find` with a callback that may throw. -/
def findM (p : Obj → Except Err Bool) : List Obj → Except Err (Option Obj)
  | [] => Except.ok none
  | u :: rest =>
    match p u with
    | Except.error e => Except.error e
    | Except.ok true => Except.ok (some u)
    | Except.ok false => findM p rest

/-- The value of an `Array.prototype.find` result: the element or `undefined`. -/
abbrev Found := Option Obj

/-- The function `findUserByEmail`. -/
def findUserByEmail (toLowerCase : String → String) (env : Env) (file : File)
    (email : JVal) : Except Err Found :=
  findM (emailMatches toLowerCase email) (getAllUsers env file)

/-- The function `findUserById`. -/
def findUserById (env : Env) (file : File) (id : JVal) : Except Err Found :=
  Except.ok ((getAllUsers env file).find? (fun user => strictEq (user.get "id") id))

/-- The id expression `Date.now().toString() + Math.random().toString(36).substr(2, 9)`. -/
def generateId (env : Env) : String :=
  toString env.now ++ substr env.random 2 9

/-- The object literal `newUser` of `createUser`, given the lower-cased email. -/
def newUser (env : Env) (userData : Obj) (email : String) : Obj :=
  [ ("id", JVal.str (generateId env)),
    ("email", JVal.str email),
    ("password", userData.get "password"),
    ("name", userData.get "name"),
    ("createdAt", JVal.str env.iso1),
    ("updatedAt", JVal.str env.iso2) ]

/-- The function `createUser`: the returned value or thrown error, and the file afterwards. -/
def createUser (toLowerCase : String → String) (env : Env) (file : File)
    (userData : Obj) : Except Err Obj × File :=
  let users := getAllUsers env file
  match findM (emailMatches toLowerCase (userData.get "email")) users with
  | Except.error e => (Except.error e, file)
  | Except.ok (some _) => (Except.error Err.userAlreadyExists, file)
  | Except.ok none =>
    match callToLowerCase toLowerCase (userData.get "email") with
    | Except.error e => (Except.error e, file)
    | Except.ok email =>
      let saved := saveUsers env file (users ++ [newUser env userData email])
      (Except.ok (Obj.del "password" (newUser env userData email)), saved.2)

/-- The method `Array.prototype.findIndex`, with `none` for `-1`. -/
def findIndex (p : Obj → Bool) : List Obj → Option Nat
  | [] => none
  | u :: rest => if p u then some 0 else (findIndex p rest).map (· + 1)

/-- The record written by `updateUser`: `{ ...user, ...updateData, updatedAt }`. -/
def mergeUpdate (env : Env) (user updateData : Obj) : Obj :=
  Obj.set "updatedAt" (JVal.str env.iso1) (Obj.spread user updateData)

/-- The function `updateUser`: the returned value or thrown error, and the file afterwards. -/
def updateUser (env : Env) (file : File) (id : JVal) (updateData : Obj) :
    Except Err Obj × File :=
  let users := getAllUsers env file
  match findIndex (fun user => strictEq (user.get "id") id) users with
  | none => (Except.error Err.userNotFound, file)
  | some userIndex =>
    let updated := mergeUpdate env (users.getD userIndex []) updateData
    let users' := users.set userIndex updated
    let saved := saveUsers env file users'
    (Except.ok (Obj.del "password" updated), saved.2)

/-! ## auth.js -/

/-- A time span as accepted by the `expiresIn` option. -/
inductive Span where
  | seconds (n : Nat)
  | hours (n : Nat)
  deriving DecidableEq

/-- The number of seconds in a span. -/
def Span.toSeconds : Span → Nat
  | Span.seconds n => n
  | Span.hours n => n * 3600

/-- The constant `JWT_EXPIRES_IN = '24h'`. -/
def JWT_EXPIRES_IN : Span := Span.hours 24

/-- The errors raised by the token library. -/
inductive JwtError where
  | malformed
  | invalidSignature
  | expired
  deriving DecidableEq

/-- The two entry points of the token library used by `auth.js`, over tokens of type `τ`.
`sign payload secret expiresIn clock` and `verify token secret clock`, the clock in
milliseconds. -/
structure Jwt (τ : Type) where
  sign : Obj → String → Span → Nat → τ
  verify : τ → String → Nat → Except JwtError Obj

/-- The function `generateToken` at clock reading `now` (milliseconds). -/
def generateToken {τ : Type} (jwt : Jwt τ) (secret : String) (now : Nat)
    (userId email : JVal) : τ :=
  jwt.sign
    [ ("userId", userId),
      ("email", email),
      ("iat", JVal.num (Int.ofNat (now / 1000))) ]
    secret JWT_EXPIRES_IN now

/-- The function `verifyToken` at clock reading `now`: every library error becomes
`Error('Invalid token')`. -/
def verifyToken {τ : Type} (jwt : Jwt τ) (secret : String) (now : Nat) (token : τ) :
    Except Err Obj :=
  match jwt.verify token secret now with
  | Except.ok decoded => Except.ok decoded
  | Except.error _ => Except.error Err.invalidToken

/-- A signed token, decoded: the payload and the key of its signature. -/
structure Jws where
  payload : Obj
  key : String
  deriving DecidableEq

/-- Modelled from the spec: the `jsonwebtoken` package (`jwt.sign`, `jwt.verify`) is a
dependency whose code is not part of the source tree.  Signing embeds the payload and
an expiry a fixed window after the issue time (the payload's `iat` when it is a
non-zero number, the clock otherwise); verification fails when the signature does not
match the key or when the expiry has passed (clock second `>=` expiry), and returns
the embedded claim unmodified otherwise. -/
def jsonwebtoken : Jwt Jws where
  sign := fun payload secret expiresIn clock =>
    let timestamp : Int :=
      match Obj.get "iat" payload with
      | JVal.num n => if n = 0 then Int.ofNat (clock / 1000) else n
      | _ => Int.ofNat (clock / 1000)
    { payload :=
        Obj.set "exp" (JVal.num (timestamp + Int.ofNat expiresIn.toSeconds))
          (Obj.set "iat" (JVal.num timestamp) payload),
      key := secret }
  verify := fun token secret clock =>
    if token.key ≠ secret then Except.error JwtError.invalidSignature
    else
      match Obj.get "exp" token.payload with
      | JVal.num exp =>
        if Int.ofNat (clock / 1000) ≥ exp then Except.error JwtError.expired
        else Except.ok token.payload
      | _ => Except.ok token.payload

/-- Splitting a character list at every occurrence of `sep`; `acc` is the current part, reversed. -/
def splitAux (sep : Char) : List Char → List Char → List String
  | acc, [] => [String.mk acc.reverse]
  | acc, c :: cs =>
    if c = sep then String.mk acc.reverse :: splitAux sep [] cs
    else splitAux sep (c :: acc) cs

/-- The method `String.prototype.split` with a one-character separator. -/
def split (s : String) (sep : Char) : List String := splitAux sep [] s.data

/-- A JSON reply `res.status(status).json({ success, message })`. -/
structure Response where
  status : Nat
  success : Bool
  message : String
  deriving DecidableEq

/-- What the middleware did: the reply it sent (if any), the value it stored in
`req.user` (if any), and how many times it called `next`. -/
structure Outcome where
  response : Option Response
  user : Option Obj
  nextCalls : Nat
  deriving DecidableEq

/-- The expression `authHeader && authHeader.split(' ')[1]`; `none` is `undefined`. -/
def extractToken (authHeader : Option String) : Option String :=
  match authHeader with
  | none => none
  | some h => if h = "" then some "" else (split h ' ')[1]?

/-- The test `!token`. -/
def tokenMissing : Option String → Bool
  | none => true
  | some t => t == ""

/-- The middleware `authenticateToken`; `authHeader` is `req.headers['authorization']`.
The continuation `next` is the framework's and returns normally. -/
def authenticateToken (jwt : Jwt String) (secret : String) (now : Nat)
    (authHeader : Option String) : Outcome :=
  let token := extractToken authHeader
  if tokenMissing token then
    { response := some ⟨401, false, "Access token required"⟩, user := none, nextCalls := 0 }
  else
    match verifyToken jwt secret now (token.getD "") with
    | Except.ok decoded => { response := none, user := some decoded, nextCalls := 1 }
    | Except.error _ =>
      { response := some ⟨403, false, "Invalid or expired token"⟩, user := none, nextCalls := 0 }

/-! ## Sequences of store calls -/

/-- One mutating call on the store, with what it observes of the outside world. -/
inductive Call where
  | create (env : Env) (userData : Obj)
  | update (env : Env) (id : JVal) (updateData : Obj)

/-- The file after one call. -/
def Call.run (toLowerCase : String → String) (file : File) : Call → File
  | Call.create env userData => (createUser toLowerCase env file userData).2
  | Call.update env id updateData => (updateUser env file id updateData).2

/-- Whether the call leaves stored emails alone: every `createUser`, and an `updateUser`
whose update data has no `email` property. -/
def Call.keepsEmail : Call → Bool
  | Call.create _ _ => true
  | Call.update _ _ updateData => !(Obj.hasKey "email" updateData)

/-- The file after a sequence of calls, starting from `file`. -/
def runCalls (toLowerCase : String → String) (file : File) (calls : List Call) : File :=
  calls.foldl (Call.run toLowerCase) file

/-- Two values that are strings and agree after lower-casing. -/
def emailClash (toLowerCase : String → String) : JVal → JVal → Bool
  | JVal.str a, JVal.str b => toLowerCase a == toLowerCase b
  | _, _ => false

/-- Two records whose emails are strings that agree after lower-casing. -/
def sameEmail (toLowerCase : String → String) (u v : Obj) : Bool :=
  emailClash toLowerCase (u.get "email") (v.get "email")

/-- No two distinct records of the list have emails equal after lower-casing. -/
def EmailsUnique (toLowerCase : String → String) (users : Store) : Prop :=
  users.Pairwise (fun u v => sameEmail toLowerCase u v = false)

instance (toLowerCase : String → String) (users : Store) :
    Decidable (EmailsUnique toLowerCase users) :=
  inferInstanceAs (Decidable (users.Pairwise (fun u v => sameEmail toLowerCase u v = false)))

/-- Every record of the list has a string email. -/
def EmailsAreStrings (users : Store) : Prop :=
  ∀ u ∈ users, ∃ e, u.get "email" = JVal.str e

/-- Some record of the list has a string email that equals the candidate email after
lower-casing both. -/
def EmailTaken (toLowerCase : String → String) (users : Store) (email : JVal) : Prop :=
  ∃ u ∈ users, ∃ a b, u.get "email" = JVal.str a ∧ email = JVal.str b ∧
    toLowerCase a = toLowerCase b

/-- Whether a result is a thrown error. -/
def isFailure {α : Type} : Except Err α → Bool
  | Except.error _ => true
  | Except.ok _ => false

/-! ## Concrete inputs -/

/-- Lower-casing of the letters `A`..`Z`, every other character kept: the value of
`String.prototype.toLowerCase` on strings of ASCII characters, used to evaluate the
functions on such strings. -/
def asciiToLowerCase (s : String) : String := String.mk (s.data.map Char.toLower)

/-- A call in which reading and writing succeed, at clock 1700000000000 with
`Math.random()` equal to one half. -/
def envOk : Env :=
  { readOk := true, write := WriteOutcome.written, now := 1700000000000, random := "0.i",
    iso1 := "2023-11-14T22:13:20.000Z", iso2 := "2023-11-14T22:13:20.000Z" }

/-- A stored record for `a@x.com`. -/
def recordA : Obj :=
  [ ("id", JVal.str "1700000000000i"),
    ("email", JVal.str "a@x.com"),
    ("password", JVal.str "$2a$12$hashA"),
    ("name", JVal.str "A"),
    ("createdAt", JVal.str "2023-11-14T22:13:20.000Z"),
    ("updatedAt", JVal.str "2023-11-14T22:13:20.000Z") ]

/-- The file holding the single record `recordA`. -/
def fileA : File := File.parsed [recordA]

/-- A registration candidate for `B@x.com`. -/
def candidateB : Obj :=
  [ ("email", JVal.str "B@x.com"),
    ("password", JVal.str "$2a$12$hashB"),
    ("name", JVal.str "B") ]

/-- A call in which reading the file fails. -/
def envReadFails : Env := { envOk with readOk := false }

/-- A call in which the write fails after the file was emptied. -/
def envWriteFails : Env := { envOk with write := WriteOutcome.failedTruncated }

/-- A later call, at clock 1700000000001 with a different random draw. -/
def envLater : Env :=
  { readOk := true, write := WriteOutcome.written, now := 1700000000001, random := "0.j",
    iso1 := "2023-11-14T22:13:20.001Z", iso2 := "2023-11-14T22:13:20.001Z" }

/-- A token library over strings that accepts exactly the token `good`. -/
def toyJwt : Jwt String where
  sign := fun _ _ _ _ => "good"
  verify := fun token _ _ =>
    if token = "good" then Except.ok [("userId", JVal.str "1")]
    else Except.error JwtError.malformed

/-! ## Lemmas on objects and strings -/

theorem Obj.get_del_self (k : String) (o : Obj) :
    Obj.get k (Obj.del k o) = JVal.undefined := by
  induction o with
  | nil => rfl
  | cons kv rest ih =>
    obtain ⟨k', v⟩ := kv
    by_cases h : k' = k
    · simp [Obj.del, h, ih]
    · simp [Obj.del, Obj.get, h, ih]

theorem Obj.get_del_ne {j k : String} (h : j ≠ k) (o : Obj) :
    Obj.get j (Obj.del k o) = Obj.get j o := by
  induction o with
  | nil => rfl
  | cons kv rest ih =>
    obtain ⟨k', v⟩ := kv
    by_cases hk : k' = k
    · have hj : ¬ k' = j := fun e => h (e.symm.trans hk)
      rw [Obj.del, if_pos hk, Obj.get, if_neg hj, ih]
    · by_cases hj : k' = j
      · rw [Obj.del, if_neg hk, Obj.get, if_pos hj, Obj.get, if_pos hj]
      · rw [Obj.del, if_neg hk, Obj.get, if_neg hj, Obj.get, if_neg hj, ih]

theorem Obj.get_set_self (k : String) (v : JVal) (o : Obj) :
    Obj.get k (Obj.set k v o) = v := by
  simp [Obj.set, Obj.get]

theorem Obj.get_set_ne {j k : String} (h : j ≠ k) (v : JVal) (o : Obj) :
    Obj.get j (Obj.set k v o) = Obj.get j o := by
  have hk : ¬ k = j := fun e => h e.symm
  simp [Obj.set, Obj.get, hk, Obj.get_del_ne h]

theorem Obj.get_spread_of_hasKey_false {k : String} (a b : Obj)
    (h : Obj.hasKey k b = false) : Obj.get k (Obj.spread a b) = Obj.get k a := by
  induction b with
  | nil => rfl
  | cons kv rest ih =>
    obtain ⟨k', v⟩ := kv
    by_cases hk : k' = k
    · simp [Obj.hasKey, hk] at h
    · simp [Obj.hasKey, hk] at h
      have hne : k ≠ k' := fun e => hk e.symm
      simp [Obj.spread, Obj.get_set_ne hne, ih h]

theorem charToLower_idem (c : Char) : c.toLower.toLower = c.toLower := by
  by_cases h : c.toNat ≥ 65 ∧ c.toNat ≤ 90
  · have h1 : c.toLower = Char.ofNat (c.toNat + 32) := by
      simp only [Char.toLower]
      rw [if_pos h]
    rw [h1]
    obtain ⟨ha, hb⟩ := h
    generalize c.toNat = n at ha hb
    interval_cases n <;> decide
  · have h1 : c.toLower = c := by
      simp only [Char.toLower]
      rw [if_neg h]
    rw [h1, h1]

theorem asciiToLowerCase_idem (s : String) :
    asciiToLowerCase (asciiToLowerCase s) = asciiToLowerCase s := by
  simp [asciiToLowerCase, List.map_map, Function.comp_def, charToLower_idem]

theorem Obj.get_spread_of_hasKey_true {k : String} (a b : Obj)
    (h : Obj.hasKey k b = true) : Obj.get k (Obj.spread a b) = Obj.get k b := by
  induction b with
  | nil => simp [Obj.hasKey] at h
  | cons kv rest ih =>
    obtain ⟨k', v⟩ := kv
    by_cases hk : k' = k
    · subst hk
      simp [Obj.spread, Obj.get_set_self, Obj.get]
    · simp [Obj.hasKey, hk] at h
      have hne : k ≠ k' := fun e => hk e.symm
      rw [Obj.spread, Obj.get_set_ne hne, ih h, Obj.get, if_neg hk]

/-! ## Lemmas on the array searches -/

theorem emailMatches_str (toLowerCase : String → String) (u : Obj) (a b : String)
    (ha : u.get "email" = JVal.str a) :
    emailMatches toLowerCase (JVal.str b) u =
      Except.ok (toLowerCase a == toLowerCase b) := by
  simp [emailMatches, callToLowerCase, ha, bind, Except.bind, pure, Except.pure]

theorem emailMatches_ok {toLowerCase : String → String} {c : JVal} {u : Obj} {r : Bool}
    (h : emailMatches toLowerCase c u = Except.ok r) :
    ∃ a b, u.get "email" = JVal.str a ∧ c = JVal.str b ∧
      r = (toLowerCase a == toLowerCase b) := by
  unfold emailMatches at h
  cases hu : u.get "email" <;> cases c <;>
    simp [hu, callToLowerCase, bind, Except.bind, pure, Except.pure] at h
  exact ⟨_, _, rfl, rfl, h.symm⟩

theorem findM_none {p : Obj → Except Err Bool} {l : List Obj}
    (h : findM p l = Except.ok none) : ∀ u ∈ l, p u = Except.ok false := by
  induction l with
  | nil => intro u hu; cases hu
  | cons x rest ih =>
    intro u hu
    unfold findM at h
    cases hx : p x with
    | error e => simp [hx] at h
    | ok b =>
      cases b with
      | true => simp [hx] at h
      | false =>
        simp only [hx] at h
        rcases List.mem_cons.mp hu with rfl | hmem
        · exact hx
        · exact ih h u hmem

theorem findM_some {p : Obj → Except Err Bool} {l : List Obj} {u : Obj}
    (h : findM p l = Except.ok (some u)) : u ∈ l ∧ p u = Except.ok true := by
  induction l with
  | nil => simp [findM] at h
  | cons x rest ih =>
    unfold findM at h
    cases hx : p x with
    | error e => simp [hx] at h
    | ok b =>
      cases b with
      | true =>
        simp only [hx, Except.ok.injEq, Option.some.injEq] at h
        subst h
        exact ⟨List.mem_cons_self _ _, hx⟩
      | false =>
        simp only [hx] at h
        exact ⟨List.mem_cons_of_mem _ (ih h).1, (ih h).2⟩

theorem findM_of_all_false {p : Obj → Except Err Bool} {l : List Obj}
    (h : ∀ u ∈ l, p u = Except.ok false) : findM p l = Except.ok none := by
  induction l with
  | nil => rfl
  | cons x rest ih =>
    unfold findM
    rw [h x (List.mem_cons_self _ _)]
    exact ih (fun u hu => h u (List.mem_cons_of_mem _ hu))

theorem findM_of_taken {toLowerCase : String → String} {users : Store} {c : JVal}
    (hs : EmailsAreStrings users) (ht : EmailTaken toLowerCase users c) :
    ∃ u, findM (emailMatches toLowerCase c) users = Except.ok (some u) := by
  induction users with
  | nil => obtain ⟨u, hu, _⟩ := ht; cases hu
  | cons x rest ih =>
    obtain ⟨u, hu, a, b, ha, hc, hab⟩ := ht
    subst hc
    obtain ⟨ax, hax⟩ := hs x (List.mem_cons_self _ _)
    unfold findM
    rw [emailMatches_str toLowerCase x ax b hax]
    by_cases hm : toLowerCase ax = toLowerCase b
    · exact ⟨x, by simp [hm]⟩
    · have hne : (toLowerCase ax == toLowerCase b) = false := by simpa using hm
      rw [hne]
      rcases List.mem_cons.mp hu with rfl | hmem
      · rw [hax] at ha
        cases ha
        exact absurd hab hm
      · exact ih (fun v hv => hs v (List.mem_cons_of_mem _ hv)) ⟨u, hmem, a, b, ha, rfl, hab⟩

theorem findIndex_eq_none_iff (p : Obj → Bool) (l : List Obj) :
    findIndex p l = none ↔ ∀ u ∈ l, p u = false := by
  induction l with
  | nil => simp [findIndex]
  | cons x rest ih =>
    by_cases hx : p x = true
    · simp [findIndex, hx]
    · have hx' : p x = false := by simpa using hx
      simp [findIndex, hx', ih]

theorem findIndex_some {p : Obj → Bool} {l : List Obj} {i : Nat}
    (h : findIndex p l = some i) : i < l.length ∧ p (l.getD i []) = true := by
  induction l generalizing i with
  | nil => simp [findIndex] at h
  | cons x rest ih =>
    by_cases hx : p x = true
    · simp [findIndex, hx] at h
      subst h
      simpa using hx
    · have hx' : p x = false := by simpa using hx
      simp only [findIndex, hx', Bool.false_eq_true, if_false, Option.map_eq_some'] at h
      obtain ⟨j, hj, rfl⟩ := h
      have := ih hj
      exact ⟨by simpa using this.1, by simpa using this.2⟩

/-! ## Lemmas on `createUser` and `updateUser` -/

theorem getAllUsers_of_readOk {env : Env} (file : File) (hr : env.readOk = true) :
    getAllUsers env file = file.users := by
  simp [getAllUsers, hr]

theorem saveUsers_of_written {env : Env} (file : File) (users : List Obj)
    (hw : env.write = WriteOutcome.written) :
    saveUsers env file users = (true, File.parsed users) := by
  simp [saveUsers, hw]

theorem emailMatches_error {toLowerCase : String → String} {c : JVal} {u : Obj} {e : Err}
    (h : emailMatches toLowerCase c u = Except.error e) : e = Err.typeError := by
  unfold emailMatches at h
  cases hu : u.get "email" <;> cases c <;>
    simp [hu, callToLowerCase, bind, Except.bind, pure, Except.pure] at h <;> exact h.symm

theorem findM_error {toLowerCase : String → String} {c : JVal} {l : List Obj} {e : Err}
    (h : findM (emailMatches toLowerCase c) l = Except.error e) : e = Err.typeError := by
  induction l with
  | nil => simp [findM] at h
  | cons x rest ih =>
    unfold findM at h
    cases hx : emailMatches toLowerCase c x with
    | error e' =>
      simp only [hx, Except.error.injEq] at h
      subst h
      exact emailMatches_error hx
    | ok b =>
      cases b with
      | true => simp [hx] at h
      | false =>
        simp only [hx] at h
        exact ih h

theorem createUser_of_found {toLowerCase : String → String} {env : Env} {file : File}
    {userData : Obj} {u : Obj}
    (h : findM (emailMatches toLowerCase (userData.get "email")) (getAllUsers env file) =
      Except.ok (some u)) :
    createUser toLowerCase env file userData = (Except.error Err.userAlreadyExists, file) := by
  simp only [createUser, h]

theorem createUser_of_error {toLowerCase : String → String} {env : Env} {file : File}
    {userData : Obj} {e : Err}
    (h : findM (emailMatches toLowerCase (userData.get "email")) (getAllUsers env file) =
      Except.error e) :
    createUser toLowerCase env file userData = (Except.error Err.typeError, file) := by
  have := findM_error h
  subst this
  simp only [createUser, h]

theorem createUser_of_none_str {toLowerCase : String → String} {env : Env} {file : File}
    {userData : Obj} {b : String}
    (h : findM (emailMatches toLowerCase (userData.get "email")) (getAllUsers env file) =
      Except.ok none)
    (hb : userData.get "email" = JVal.str b) :
    createUser toLowerCase env file userData =
      (Except.ok (Obj.del "password" (newUser env userData (toLowerCase b))),
       (saveUsers env file
          (getAllUsers env file ++ [newUser env userData (toLowerCase b)])).2) := by
  simp only [createUser, h]
  rw [hb]
  simp [callToLowerCase]

theorem createUser_of_none_nonstr {toLowerCase : String → String} {env : Env} {file : File}
    {userData : Obj}
    (h : findM (emailMatches toLowerCase (userData.get "email")) (getAllUsers env file) =
      Except.ok none)
    (hb : ∀ b, userData.get "email" ≠ JVal.str b) :
    createUser toLowerCase env file userData = (Except.error Err.typeError, file) := by
  simp only [createUser, h]
  cases hc : userData.get "email" <;> simp [callToLowerCase]
  exact absurd hc (hb _)

theorem findM_none_of_not_taken {toLowerCase : String → String} {users : Store} {c : JVal}
    (hs : EmailsAreStrings users) (hc : ∃ b, c = JVal.str b)
    (h : ¬ EmailTaken toLowerCase users c) :
    findM (emailMatches toLowerCase c) users = Except.ok none := by
  obtain ⟨b, rfl⟩ := hc
  apply findM_of_all_false
  intro u hu
  obtain ⟨a, ha⟩ := hs u hu
  rw [emailMatches_str toLowerCase u a b ha]
  by_cases hab : toLowerCase a = toLowerCase b
  · exact absurd ⟨u, hu, a, b, ha, rfl, hab⟩ h
  · simp [hab]

theorem updateUser_of_none {env : Env} {file : File} {id : JVal} {updateData : Obj}
    (h : findIndex (fun user => strictEq (user.get "id") id) (getAllUsers env file) = none) :
    updateUser env file id updateData = (Except.error Err.userNotFound, file) := by
  simp only [updateUser, h]

theorem updateUser_of_some {env : Env} {file : File} {id : JVal} {updateData : Obj} {i : Nat}
    (h : findIndex (fun user => strictEq (user.get "id") id) (getAllUsers env file) = some i) :
    updateUser env file id updateData =
      (Except.ok (Obj.del "password"
          (mergeUpdate env ((getAllUsers env file).getD i []) updateData)),
       (saveUsers env file ((getAllUsers env file).set i
          (mergeUpdate env ((getAllUsers env file).getD i []) updateData))).2) := by
  simp only [updateUser, h]

theorem fileA_strings : EmailsAreStrings fileA.users := by
  intro u hu
  simp only [fileA, File.users, List.mem_singleton] at hu
  subst hu
  exact ⟨"a@x.com", rfl⟩

theorem candidateB_free : ¬ EmailTaken asciiToLowerCase fileA.users (JVal.str "B@x.com") := by
  rintro ⟨u, hu, a, b, ha, hb, hab⟩
  simp only [fileA, File.users, List.mem_singleton] at hu
  subst hu
  cases hb
  have : a = "a@x.com" := by
    have h : recordA.get "email" = JVal.str "a@x.com" := rfl
    rw [h] at ha
    cases ha
    rfl
  subst this
  revert hab
  decide

/-! ## Properties of the store operations -/

/-- C2: with a readable file whose records have string emails, and for every
lower-casing function, `createUser` throws 'User already exists' exactly when some
stored email equals the candidate email after lower-casing both; whenever `createUser`
throws, the file is unchanged; and creating from the empty store with one email and then
with an email that lower-cases to the same string (lower-casing the stored email
changing nothing) makes the second call throw 'User already exists' and leaves exactly
one record. -/
theorem createUser_duplicate_iff (toLowerCase : String → String) (env : Env) (file : File)
    (userData : Obj) (hr : env.readOk = true) (hs : EmailsAreStrings file.users) :
    ((createUser toLowerCase env file userData).1 = Except.error Err.userAlreadyExists ↔
        EmailTaken toLowerCase file.users (userData.get "email")) ∧
    (∀ e, (createUser toLowerCase env file userData).1 = Except.error e →
        (createUser toLowerCase env file userData).2 = file) ∧
    (∀ (env1 env2 : Env) (c1 c2 : Obj) (a b : String),
        env1.readOk = true → env1.write = WriteOutcome.written → env2.readOk = true →
        c1.get "email" = JVal.str a → c2.get "email" = JVal.str b →
        toLowerCase a = toLowerCase b → toLowerCase (toLowerCase a) = toLowerCase a →
        (createUser toLowerCase env2
            (createUser toLowerCase env1 (File.parsed []) c1).2 c2).1 =
            Except.error Err.userAlreadyExists ∧
          (createUser toLowerCase env2
            (createUser toLowerCase env1 (File.parsed []) c1).2 c2).2 =
            (createUser toLowerCase env1 (File.parsed []) c1).2 ∧
          (createUser toLowerCase env2
            (createUser toLowerCase env1 (File.parsed []) c1).2 c2).2.users.length = 1) := by
  have hu : getAllUsers env file = file.users := getAllUsers_of_readOk file hr
  refine ⟨⟨?_, ?_⟩, ?_, ?_⟩
  · intro h
    cases hf : findM (emailMatches toLowerCase (userData.get "email"))
        (getAllUsers env file) with
    | error e => rw [createUser_of_error hf] at h; cases h
    | ok r =>
      cases r with
      | some u =>
        rw [hu] at hf
        obtain ⟨hmem, hp⟩ := findM_some hf
        obtain ⟨a, b, ha, hb, hab⟩ := emailMatches_ok hp
        exact ⟨u, hmem, a, b, ha, hb, by simpa using hab.symm⟩
      | none =>
        by_cases hb : ∃ b, userData.get "email" = JVal.str b
        · obtain ⟨b, hb⟩ := hb
          rw [createUser_of_none_str hf hb] at h
          cases h
        · rw [createUser_of_none_nonstr hf (fun b hb' => hb ⟨b, hb'⟩)] at h
          cases h
  · intro ht
    obtain ⟨u, hf⟩ := findM_of_taken hs ht
    rw [← hu] at hf
    rw [createUser_of_found hf]
  · intro e h
    cases hf : findM (emailMatches toLowerCase (userData.get "email"))
        (getAllUsers env file) with
    | error e' => rw [createUser_of_error hf]
    | ok r =>
      cases r with
      | some u => rw [createUser_of_found hf]
      | none =>
        by_cases hb : ∃ b, userData.get "email" = JVal.str b
        · obtain ⟨b, hb⟩ := hb
          rw [createUser_of_none_str hf hb] at h
          cases h
        · rw [createUser_of_none_nonstr hf (fun b hb' => hb ⟨b, hb'⟩)]
  · intro env1 env2 c1 c2 a b hr1 hw1 hr2 ha hb hab hidem
    have h1 : createUser toLowerCase env1 (File.parsed []) c1 =
        (Except.ok (Obj.del "password" (newUser env1 c1 (toLowerCase a))),
          File.parsed [newUser env1 c1 (toLowerCase a)]) := by
      have hf : findM (emailMatches toLowerCase (c1.get "email"))
          (getAllUsers env1 (File.parsed [])) = Except.ok none := by
        simp [getAllUsers, File.users, findM]
      rw [createUser_of_none_str hf ha, saveUsers_of_written _ _ hw1]
      simp [getAllUsers, File.users]
    have hf2 : findM (emailMatches toLowerCase (c2.get "email"))
        (getAllUsers env2 (createUser toLowerCase env1 (File.parsed []) c1).2)
        = Except.ok (some (newUser env1 c1 (toLowerCase a))) := by
      rw [h1, hb]
      simp only [getAllUsers, hr2, if_true, File.users, findM]
      rw [emailMatches_str toLowerCase _ (toLowerCase a) b (by simp [newUser, Obj.get])]
      rw [hidem, hab]
      simp
    rw [createUser_of_found hf2, h1]
    simp [File.users]

/-- Witness for C2: the file holding `a@x.com` with candidate `A@x.com`, and registering
`A@x.com` and then `a@x.com` from the empty store. -/
theorem createUser_duplicate_iff_witness :
    (envOk.readOk = true ∧ EmailsAreStrings fileA.users ∧
      (createUser asciiToLowerCase envOk fileA [("email", JVal.str "A@x.com")]).1 =
        Except.error Err.userAlreadyExists) ∧
    (asciiToLowerCase "A@x.com" = asciiToLowerCase "a@x.com" ∧
      asciiToLowerCase (asciiToLowerCase "A@x.com") = asciiToLowerCase "A@x.com" ∧
      (createUser asciiToLowerCase envLater
          (createUser asciiToLowerCase envOk (File.parsed [])
            [("email", JVal.str "A@x.com")]).2
          [("email", JVal.str "a@x.com")]).1 = Except.error Err.userAlreadyExists ∧
      (createUser asciiToLowerCase envLater
          (createUser asciiToLowerCase envOk (File.parsed [])
            [("email", JVal.str "A@x.com")]).2
          [("email", JVal.str "a@x.com")]).2.users.length = 1) :=
  ⟨⟨rfl, fileA_strings,
    ((createUser_duplicate_iff asciiToLowerCase envOk fileA [("email", JVal.str "A@x.com")]
        rfl fileA_strings).1).2
      ⟨recordA, by simp [fileA, File.users], "a@x.com", "A@x.com", rfl, rfl, by decide⟩⟩,
   ⟨by decide, by decide,
    ((createUser_duplicate_iff asciiToLowerCase envOk fileA [] rfl fileA_strings).2.2
        envOk envLater [("email", JVal.str "A@x.com")] [("email", JVal.str "a@x.com")]
        "A@x.com" "a@x.com" rfl rfl rfl rfl rfl (by decide) (by decide)).1,
    ((createUser_duplicate_iff asciiToLowerCase envOk fileA [] rfl fileA_strings).2.2
        envOk envLater [("email", JVal.str "A@x.com")] [("email", JVal.str "a@x.com")]
        "A@x.com" "a@x.com" rfl rfl rfl rfl rfl (by decide) (by decide)).2.2⟩⟩

/-- C9: with a readable file, `updateUser` throws 'User not found' exactly when no stored
record has an `id` strictly equal to the given one, and whenever it throws the file is
unchanged. -/
theorem updateUser_notFound_iff (env : Env) (file : File) (id : JVal) (updateData : Obj)
    (hr : env.readOk = true) :
    ((updateUser env file id updateData).1 = Except.error Err.userNotFound ↔
        ∀ u ∈ file.users, strictEq (u.get "id") id = false) ∧
    (∀ e, (updateUser env file id updateData).1 = Except.error e →
        (updateUser env file id updateData).2 = file) := by
  have hu : getAllUsers env file = file.users := getAllUsers_of_readOk file hr
  cases hf : findIndex (fun user => strictEq (user.get "id") id) (getAllUsers env file) with
  | none =>
    rw [updateUser_of_none hf]
    rw [hu] at hf
    exact ⟨⟨fun _ => (findIndex_eq_none_iff _ _).mp hf, fun _ => rfl⟩, fun _ _ => rfl⟩
  | some i =>
    rw [updateUser_of_some hf]
    rw [hu] at hf
    refine ⟨⟨fun h => (nomatch h), fun h => ?_⟩, fun e h => (nomatch h)⟩
    rw [(findIndex_eq_none_iff _ _).mpr h] at hf
    cases hf

/-- Witness for C9: the file holding `recordA`, asked for an id that is not stored. -/
theorem updateUser_notFound_iff_witness :
    envOk.readOk = true ∧
    (updateUser envOk fileA (JVal.str "42") [("name", JVal.str "B")]).1 =
      Except.error Err.userNotFound :=
  ⟨rfl, ((updateUser_notFound_iff envOk fileA (JVal.str "42") [("name", JVal.str "B")]
      rfl).1).2 (by decide)⟩

/-- C10: with a readable and writable file whose records have string emails, for every
lower-casing function and every candidate whose string email equals no stored email
after lower-casing, `createUser` succeeds and the file becomes the previous records, in
order, followed by one new record whose email is the lower-cased candidate email and
whose password and name are the candidate's. -/
theorem createUser_appends (toLowerCase : String → String) (env : Env) (file : File)
    (userData : Obj) (email : String)
    (hr : env.readOk = true) (hw : env.write = WriteOutcome.written)
    (hs : EmailsAreStrings file.users)
    (he : userData.get "email" = JVal.str email)
    (hfree : ¬ EmailTaken toLowerCase file.users (userData.get "email")) :
    ∃ record : Obj,
      (createUser toLowerCase env file userData).2 = File.parsed (file.users ++ [record]) ∧
      isFailure (createUser toLowerCase env file userData).1 = false ∧
      record.get "email" = JVal.str (toLowerCase email) ∧
      record.get "password" = userData.get "password" ∧
      record.get "name" = userData.get "name" := by
  have hu : getAllUsers env file = file.users := getAllUsers_of_readOk file hr
  have hf : findM (emailMatches toLowerCase (userData.get "email")) (getAllUsers env file) =
      Except.ok none := by
    rw [hu]
    exact findM_none_of_not_taken hs ⟨email, he⟩ hfree
  refine ⟨newUser env userData (toLowerCase email), ?_, ?_, ?_, ?_, ?_⟩
  · rw [createUser_of_none_str hf he, hu, saveUsers_of_written _ _ hw]
  · rw [createUser_of_none_str hf he]
    rfl
  · simp [newUser, Obj.get]
  · simp [newUser, Obj.get]
  · simp [newUser, Obj.get]

/-- Witness for C10: registering `B@x.com` in the file holding `a@x.com`. -/
theorem createUser_appends_witness :
    envOk.readOk = true ∧ envOk.write = WriteOutcome.written ∧
    EmailsAreStrings fileA.users ∧
    ¬ EmailTaken asciiToLowerCase fileA.users (JVal.str "B@x.com") ∧
    ∃ record : Obj,
      (createUser asciiToLowerCase envOk fileA candidateB).2 =
        File.parsed (fileA.users ++ [record]) ∧
      isFailure (createUser asciiToLowerCase envOk fileA candidateB).1 = false ∧
      record.get "email" = JVal.str "b@x.com" ∧
      record.get "password" = candidateB.get "password" ∧
      record.get "name" = candidateB.get "name" :=
  ⟨rfl, rfl, fileA_strings, candidateB_free,
    createUser_appends asciiToLowerCase envOk fileA candidateB "B@x.com" rfl rfl
      fileA_strings rfl candidateB_free⟩

/-- Counterexample to C3: registering `candidateB` succeeds, the returned record has no
password, the record written to the file has the candidate's password hash. -/
theorem createUser_returns_no_password :
    ∃ r, (createUser asciiToLowerCase envOk fileA candidateB).1 = Except.ok r ∧
      r.get "password" = JVal.undefined ∧
      ((createUser asciiToLowerCase envOk fileA candidateB).2.users.getD 1 []).get
        "password" = JVal.str "$2a$12$hashB" := by
  refine ⟨_, rfl, ?_, ?_⟩ <;> decide

/-- C3, amended: when reading and writing succeed, for every lower-casing function, the
record returned by a successful `createUser` or `updateUser` is the record written to
the file with its `password` property removed: reading `password` from it gives
`undefined`, every other property reads as in the written record. -/
theorem returned_is_stored_without_password :
    (∀ (toLowerCase : String → String) (env : Env) (file : File) (userData r : Obj),
      env.readOk = true → env.write = WriteOutcome.written →
      (createUser toLowerCase env file userData).1 = Except.ok r →
      ∃ stored,
        (createUser toLowerCase env file userData).2 =
          File.parsed (file.users ++ [stored]) ∧
        r = Obj.del "password" stored ∧ r.get "password" = JVal.undefined ∧
        ∀ k, k ≠ "password" → r.get k = stored.get k) ∧
    (∀ (env : Env) (file : File) (id : JVal) (updateData r : Obj),
      env.readOk = true → env.write = WriteOutcome.written →
      (updateUser env file id updateData).1 = Except.ok r →
      ∃ i stored, findIndex (fun user => strictEq (user.get "id") id) file.users = some i ∧
        i < file.users.length ∧
        (updateUser env file id updateData).2 = File.parsed (file.users.set i stored) ∧
        r = Obj.del "password" stored ∧ r.get "password" = JVal.undefined ∧
        ∀ k, k ≠ "password" → r.get k = stored.get k) := by
  constructor
  · intro toLowerCase env file userData r hr hw h
    have hu : getAllUsers env file = file.users := getAllUsers_of_readOk file hr
    cases hf : findM (emailMatches toLowerCase (userData.get "email"))
        (getAllUsers env file) with
    | error e => rw [createUser_of_error hf] at h; cases h
    | ok o =>
      cases o with
      | some u => rw [createUser_of_found hf] at h; cases h
      | none =>
        by_cases hb : ∃ b, userData.get "email" = JVal.str b
        · obtain ⟨b, hb⟩ := hb
          rw [createUser_of_none_str hf hb] at h ⊢
          simp only [Except.ok.injEq] at h
          subst h
          refine ⟨newUser env userData (toLowerCase b), ?_, rfl, Obj.get_del_self _ _,
            fun k hk => Obj.get_del_ne hk _⟩
          rw [saveUsers_of_written _ _ hw, hu]
        · rw [createUser_of_none_nonstr hf (fun b hb' => hb ⟨b, hb'⟩)] at h
          cases h
  · intro env file id updateData r hr hw h
    have hu : getAllUsers env file = file.users := getAllUsers_of_readOk file hr
    cases hf : findIndex (fun user => strictEq (user.get "id") id) (getAllUsers env file) with
    | none => rw [updateUser_of_none hf] at h; cases h
    | some i =>
      rw [updateUser_of_some hf] at h ⊢
      simp only [Except.ok.injEq] at h
      subst h
      rw [hu] at hf ⊢
      refine ⟨i, mergeUpdate env (file.users.getD i []) updateData, hf, (findIndex_some hf).1,
        ?_, rfl, Obj.get_del_self _ _, fun k hk => Obj.get_del_ne hk _⟩
      rw [saveUsers_of_written _ _ hw]

/-- Witness for C3: registering `candidateB` in the file holding `recordA`. -/
theorem returned_is_stored_without_password_witness :
    envOk.readOk = true ∧ envOk.write = WriteOutcome.written ∧
    (createUser asciiToLowerCase envOk fileA candidateB).1 =
      Except.ok (Obj.del "password" (newUser envOk candidateB "b@x.com")) ∧
    ∃ stored,
      (createUser asciiToLowerCase envOk fileA candidateB).2 =
        File.parsed (fileA.users ++ [stored]) ∧
      Obj.del "password" (newUser envOk candidateB "b@x.com") = Obj.del "password" stored ∧
      (Obj.del "password" (newUser envOk candidateB "b@x.com")).get "password" =
        JVal.undefined ∧
      ∀ k, k ≠ "password" →
        (Obj.del "password" (newUser envOk candidateB "b@x.com")).get k = stored.get k :=
  ⟨rfl, rfl, rfl,
    returned_is_stored_without_password.1 asciiToLowerCase envOk fileA candidateB _ rfl rfl
      rfl⟩

/-- Counterexample to C4: an update whose data carries `id` and `createdAt` succeeds and
replaces both in the stored record. -/
theorem updateUser_overwrites_id :
    isFailure (updateUser envOk fileA (JVal.str "1700000000000i")
        [("id", JVal.str "other"), ("createdAt", JVal.str "1999")]).1 = false ∧
    recordA.get "id" = JVal.str "1700000000000i" ∧
    ((updateUser envOk fileA (JVal.str "1700000000000i")
        [("id", JVal.str "other"), ("createdAt", JVal.str "1999")]).2.users.getD 0 []).get
        "id" = JVal.str "other" ∧
    recordA.get "createdAt" = JVal.str "2023-11-14T22:13:20.000Z" ∧
    ((updateUser envOk fileA (JVal.str "1700000000000i")
        [("id", JVal.str "other"), ("createdAt", JVal.str "1999")]).2.users.getD 0 []).get
        "createdAt" = JVal.str "1999" := by
  decide

/-- C4, amended: when reading and writing succeed and some stored record has the given
id, `updateUser` succeeds and rewrites only the first such record; its `updatedAt` is
the time of the call whatever the update data carries; its `id` is the stored one when
the update data has no `id` property and the update data's `id` when it has one; its
`createdAt` is the stored one when the update data has no `createdAt` property and the
update data's `createdAt` when it has one. -/
theorem updateUser_keeps_id_createdAt (env : Env) (file : File) (id : JVal)
    (updateData : Obj) (hr : env.readOk = true) (hw : env.write = WriteOutcome.written)
    (hp : ∃ u ∈ file.users, strictEq (u.get "id") id = true) :
    ∃ i, findIndex (fun user => strictEq (user.get "id") id) file.users = some i ∧
      i < file.users.length ∧
      isFailure (updateUser env file id updateData).1 = false ∧
      (updateUser env file id updateData).2 =
        File.parsed
          (file.users.set i ((updateUser env file id updateData).2.users.getD i [])) ∧
      ((updateUser env file id updateData).2.users.getD i []).get "updatedAt" =
        JVal.str env.iso1 ∧
      (updateData.hasKey "id" = false →
        ((updateUser env file id updateData).2.users.getD i []).get "id" =
          (file.users.getD i []).get "id") ∧
      (updateData.hasKey "id" = true →
        ((updateUser env file id updateData).2.users.getD i []).get "id" =
          updateData.get "id") ∧
      (updateData.hasKey "createdAt" = false →
        ((updateUser env file id updateData).2.users.getD i []).get "createdAt" =
          (file.users.getD i []).get "createdAt") ∧
      (updateData.hasKey "createdAt" = true →
        ((updateUser env file id updateData).2.users.getD i []).get "createdAt" =
          updateData.get "createdAt") := by
  have hu : getAllUsers env file = file.users := getAllUsers_of_readOk file hr
  cases hf : findIndex (fun user => strictEq (user.get "id") id) file.users with
  | none =>
    obtain ⟨u, hmem, hu'⟩ := hp
    have := (findIndex_eq_none_iff _ _).mp hf u hmem
    simp [hu'] at this
  | some i =>
    have hlt := (findIndex_some hf).1
    have hf' := hf
    rw [← hu] at hf'
    have hstore : (updateUser env file id updateData).2 =
        File.parsed (file.users.set i (mergeUpdate env (file.users.getD i []) updateData)) := by
      rw [updateUser_of_some hf', hu, saveUsers_of_written _ _ hw]
    have hget : (updateUser env file id updateData).2.users.getD i [] =
        mergeUpdate env (file.users.getD i []) updateData := by
      rw [hstore]
      show (file.users.set i _).getD i [] = _
      simp [List.getD, hlt]
    refine ⟨i, rfl, hlt, ?_, ?_, ?_, ?_, ?_, ?_, ?_⟩
    · rw [updateUser_of_some hf']; rfl
    · rw [hget]; exact hstore
    · rw [hget]; exact Obj.get_set_self _ _ _
    · intro hk
      rw [hget, mergeUpdate, Obj.get_set_ne (by decide), Obj.get_spread_of_hasKey_false _ _ hk]
    · intro hk
      rw [hget, mergeUpdate, Obj.get_set_ne (by decide), Obj.get_spread_of_hasKey_true _ _ hk]
    · intro hk
      rw [hget, mergeUpdate, Obj.get_set_ne (by decide), Obj.get_spread_of_hasKey_false _ _ hk]
    · intro hk
      rw [hget, mergeUpdate, Obj.get_set_ne (by decide), Obj.get_spread_of_hasKey_true _ _ hk]

/-- Witness for C4: an update of `recordA` that carries a new name and a new id. -/
theorem updateUser_keeps_id_createdAt_witness :
    envOk.readOk = true ∧ envOk.write = WriteOutcome.written ∧
    (∃ u ∈ fileA.users, strictEq (u.get "id") (JVal.str "1700000000000i") = true) ∧
    ∃ i, findIndex (fun user => strictEq (user.get "id") (JVal.str "1700000000000i"))
        fileA.users = some i ∧
      ((updateUser envOk fileA (JVal.str "1700000000000i")
          [("name", JVal.str "B"), ("id", JVal.str "7")]).2.users.getD i []).get "id" =
        JVal.str "7" ∧
      ((updateUser envOk fileA (JVal.str "1700000000000i")
          [("name", JVal.str "B"), ("id", JVal.str "7")]).2.users.getD i []).get
          "createdAt" = (fileA.users.getD i []).get "createdAt" :=
  ⟨rfl, rfl, ⟨recordA, by simp [fileA, File.users], by decide⟩,
    (updateUser_keeps_id_createdAt envOk fileA (JVal.str "1700000000000i")
      [("name", JVal.str "B"), ("id", JVal.str "7")] rfl rfl
      ⟨recordA, by simp [fileA, File.users], by decide⟩).imp
      (fun _ h => ⟨h.1, h.2.2.2.2.2.2.1 (by decide), h.2.2.2.2.2.2.2.1 (by decide)⟩)⟩

/-- Counterexample to C5: when reading the file fails, `findUserByEmail` answers
not-found for a stored email and `createUser` returns a record and replaces the file;
when the write fails, `createUser` returns a record all the same. -/
theorem read_failure_is_not_reported :
    findUserByEmail asciiToLowerCase envReadFails fileA (JVal.str "a@x.com") =
      Except.ok none ∧
    isFailure (createUser asciiToLowerCase envReadFails fileA candidateB).1 = false ∧
    (createUser asciiToLowerCase envReadFails fileA candidateB).2 ≠ fileA ∧
    isFailure (createUser asciiToLowerCase envWriteFails fileA candidateB).1 = false := by
  refine ⟨rfl, rfl, ?_, rfl⟩
  decide

/-- C5, amended: when reading the file fails, or its text does not parse, `getAllUsers`
yields the empty array, so for every lower-casing function `findUserByEmail` and
`findUserById` answer not-found and `updateUser` throws 'User not found' and leaves the
file unchanged; and `saveUsers` returns `false` whenever the write fails. -/
theorem io_failure_behaviour (env : Env) (file : File) :
    ((env.readOk = false ∨ file = File.unparsable) →
      ∀ (toLowerCase : String → String) (email id : JVal) (updateData : Obj),
        getAllUsers env file = [] ∧
        findUserByEmail toLowerCase env file email = Except.ok none ∧
        findUserById env file id = Except.ok none ∧
        updateUser env file id updateData = (Except.error Err.userNotFound, file)) ∧
    (env.write ≠ WriteOutcome.written →
      ∀ users : List Obj, (saveUsers env file users).1 = false) := by
  constructor
  · intro hr toLowerCase email id updateData
    have hu : getAllUsers env file = [] := by
      rcases hr with hr | hr
      · simp [getAllUsers, hr]
      · simp [getAllUsers, hr, File.users]
    refine ⟨hu, ?_, ?_, ?_⟩
    · simp [findUserByEmail, hu, findM]
    · simp [findUserById, hu]
    · exact updateUser_of_none (by rw [hu]; rfl)
  · intro hw users
    unfold saveUsers
    cases hc : env.write <;> simp_all

/-- Witness for C5: a failed read on the file holding `recordA`. -/
theorem io_failure_behaviour_witness :
    (envReadFails.readOk = false ∨ fileA = File.unparsable) ∧
    getAllUsers envReadFails fileA = [] ∧
    findUserByEmail asciiToLowerCase envReadFails fileA (JVal.str "a@x.com") =
      Except.ok none ∧
    findUserById envReadFails fileA (JVal.str "1700000000000i") = Except.ok none ∧
    updateUser envReadFails fileA (JVal.str "1700000000000i") [("name", JVal.str "B")] =
      (Except.error Err.userNotFound, fileA) :=
  ⟨Or.inl rfl, (io_failure_behaviour envReadFails fileA).1 (Or.inl rfl) asciiToLowerCase
    (JVal.str "a@x.com") (JVal.str "1700000000000i") [("name", JVal.str "B")]⟩

theorem toDigitsCore_ne_nil (b : Nat) (fuel : Nat) :
    ∀ (n : Nat) (ds : List Char), (0 < fuel ∨ ds ≠ []) → Nat.toDigitsCore b fuel n ds ≠ [] := by
  induction fuel with
  | zero =>
    intro n ds h
    rcases h with h | h
    · cases h
    · simpa [Nat.toDigitsCore] using h
  | succ f ih =>
    intro n ds _
    simp only [Nat.toDigitsCore]
    split
    · simp
    · exact ih _ _ (Or.inr (by simp))

/-- The id built by `createUser` is never the empty string. -/
theorem generateId_ne_empty (env : Env) : generateId env ≠ "" := by
  intro h
  have h1 : (generateId env).data = [] := by rw [h]
  simp only [generateId, String.data_append, List.append_eq_nil] at h1
  have h2 : (toString env.now).data = Nat.toDigits 10 env.now := rfl
  rw [h2] at h1
  exact toDigitsCore_ne_nil 10 (env.now + 1) env.now [] (Or.inl (Nat.succ_pos _)) h1.1

/-- C6 on the failing input: the id built by `createUser` is never empty, but at clock
1700000000000 with `Math.random()` one half `createUser` succeeds and gives the new
record the id `1700000000000i`, which the stored record `recordA` already has. -/
theorem createUser_reuses_id :
    (∀ env : Env, generateId env ≠ "") ∧
    isFailure (createUser asciiToLowerCase envOk fileA candidateB).1 = false ∧
    (createUser asciiToLowerCase envOk fileA candidateB).2.users.map (Obj.get "id") =
      [JVal.str "1700000000000i", JVal.str "1700000000000i"] :=
  ⟨generateId_ne_empty, by decide⟩

/-! ## Email uniqueness along sequences of calls -/

theorem sameEmail_of_str (toLowerCase : String → String) {u v : Obj} {a b : String}
    (ha : u.get "email" = JVal.str a) (hb : v.get "email" = JVal.str b) :
    sameEmail toLowerCase u v = (toLowerCase a == toLowerCase b) := by
  simp [sameEmail, emailClash, ha, hb]

theorem emailsUnique_iff_map (toLowerCase : String → String) (users : Store) :
    EmailsUnique toLowerCase users ↔
      (users.map (Obj.get "email")).Pairwise
        (fun a b => emailClash toLowerCase a b = false) := by
  simp [EmailsUnique, sameEmail, List.pairwise_map]

theorem emailsAreStrings_iff_map (users : Store) :
    EmailsAreStrings users ↔ ∀ e ∈ users.map (Obj.get "email"), ∃ s, e = JVal.str s := by
  simp [EmailsAreStrings]

theorem map_set_of_same {l : List Obj} {i : Nat} {x : Obj}
    (h : x.get "email" = (l.getD i []).get "email") :
    (l.set i x).map (Obj.get "email") = l.map (Obj.get "email") := by
  induction l generalizing i with
  | nil => rfl
  | cons y rest ih =>
    cases i with
    | zero => simpa using h
    | succ j =>
      simp only [List.set_cons_succ, List.map_cons, List.cons.injEq, true_and]
      exact ih (by simpa using h)

theorem saveUsers_cases (env : Env) (file : File) (users : List Obj) :
    (saveUsers env file users).2 = file ∨
      (saveUsers env file users).2 = File.parsed users ∨
      (saveUsers env file users).2 = File.unparsable := by
  unfold saveUsers
  cases env.write <;> simp

theorem getAllUsers_cases (env : Env) (file : File) :
    getAllUsers env file = file.users ∨ getAllUsers env file = [] := by
  unfold getAllUsers
  cases env.readOk <;> simp

theorem createUser_keeps_unique (toLowerCase : String → String)
    (hidem : ∀ s, toLowerCase (toLowerCase s) = toLowerCase s)
    (env : Env) (file : File) (userData : Obj)
    (hs : EmailsAreStrings file.users) (hq : EmailsUnique toLowerCase file.users) :
    EmailsAreStrings (createUser toLowerCase env file userData).2.users ∧
      EmailsUnique toLowerCase (createUser toLowerCase env file userData).2.users := by
  cases hf : findM (emailMatches toLowerCase (userData.get "email"))
      (getAllUsers env file) with
  | error e => rw [createUser_of_error hf]; exact ⟨hs, hq⟩
  | ok o =>
    cases o with
    | some u => rw [createUser_of_found hf]; exact ⟨hs, hq⟩
    | none =>
      by_cases hb : ∃ b, userData.get "email" = JVal.str b
      · obtain ⟨b, hb⟩ := hb
        rw [createUser_of_none_str hf hb]
        have hus : EmailsAreStrings (getAllUsers env file) := by
          rcases getAllUsers_cases env file with h | h <;> rw [h]
          · exact hs
          · intro u hu; cases hu
        have huq : EmailsUnique toLowerCase (getAllUsers env file) := by
          rcases getAllUsers_cases env file with h | h <;> rw [h]
          · exact hq
          · exact List.Pairwise.nil
        have hnew : (newUser env userData (toLowerCase b)).get "email" =
            JVal.str (toLowerCase b) := by simp [newUser, Obj.get]
        rcases saveUsers_cases env file
          (getAllUsers env file ++ [newUser env userData (toLowerCase b)]) with h | h | h
        · rw [h]; exact ⟨hs, hq⟩
        · rw [h]
          show EmailsAreStrings (getAllUsers env file ++ [_]) ∧
            EmailsUnique toLowerCase (getAllUsers env file ++ [_])
          constructor
          · intro u hu
            rcases List.mem_append.mp hu with h | h
            · exact hus u h
            · simp only [List.mem_singleton] at h
              subst h
              exact ⟨_, hnew⟩
          · unfold EmailsUnique
            rw [List.pairwise_append]
            refine ⟨huq, List.pairwise_singleton _ _, ?_⟩
            intro u hu v hv
            simp only [List.mem_singleton] at hv
            subst hv
            obtain ⟨a, ha⟩ := hus u hu
            rw [sameEmail_of_str toLowerCase ha hnew, hidem]
            have := findM_none hf u hu
            rw [hb, emailMatches_str toLowerCase u a b ha] at this
            simpa using this
        · rw [h]
          exact ⟨fun u hu => (by cases hu), List.Pairwise.nil⟩
      · rw [createUser_of_none_nonstr hf (fun b hb' => hb ⟨b, hb'⟩)]
        exact ⟨hs, hq⟩

theorem updateUser_keeps_unique (toLowerCase : String → String) (env : Env) (file : File)
    (id : JVal) (updateData : Obj) (hk : updateData.hasKey "email" = false)
    (hs : EmailsAreStrings file.users) (hq : EmailsUnique toLowerCase file.users) :
    EmailsAreStrings (updateUser env file id updateData).2.users ∧
      EmailsUnique toLowerCase (updateUser env file id updateData).2.users := by
  cases hf : findIndex (fun user => strictEq (user.get "id") id) (getAllUsers env file) with
  | none => rw [updateUser_of_none hf]; exact ⟨hs, hq⟩
  | some i =>
    rw [updateUser_of_some hf]
    have hu : getAllUsers env file = file.users := by
      rcases getAllUsers_cases env file with h | h
      · exact h
      · rw [h] at hf; cases hf
    rcases saveUsers_cases env file ((getAllUsers env file).set i
        (mergeUpdate env ((getAllUsers env file).getD i []) updateData)) with h | h | h
    · rw [h]; exact ⟨hs, hq⟩
    · rw [h, hu]
      show EmailsAreStrings (file.users.set i _) ∧
        EmailsUnique toLowerCase (file.users.set i _)
      have hm : (file.users.set i (mergeUpdate env (file.users.getD i []) updateData)).map
          (Obj.get "email") = file.users.map (Obj.get "email") := by
        apply map_set_of_same
        rw [mergeUpdate, Obj.get_set_ne (by decide), Obj.get_spread_of_hasKey_false _ _ hk]
      rw [emailsAreStrings_iff_map, emailsUnique_iff_map, hm,
        ← emailsAreStrings_iff_map, ← emailsUnique_iff_map]
      exact ⟨hs, hq⟩
    · rw [h]
      exact ⟨fun u hu => (by cases hu), List.Pairwise.nil⟩

/-- Counterexample to C1: two registrations followed by an update that sets the second
record's email to a case variant of the first leave two records with the same
lower-cased email. -/
theorem update_breaks_email_uniqueness :
    ¬ EmailsUnique asciiToLowerCase (runCalls asciiToLowerCase (File.parsed [])
      [ Call.create envOk [("email", JVal.str "a@x.com"), ("password", JVal.str "h1")],
        Call.create envLater candidateB,
        Call.update envLater (JVal.str "1700000000001j")
          [("email", JVal.str "A@x.com")] ]).users := by
  decide

/-- C1, amended: for every lower-casing function that leaves lower-cased strings as they
are, starting from the empty store, after every finite sequence of `createUser` calls
and of `updateUser` calls whose update data has no `email` property (arbitrary other
arguments, failed reads and writes included), every stored email is a string and no two
stored records have emails equal after lower-casing. -/
theorem emails_unique_invariant (toLowerCase : String → String)
    (hidem : ∀ s, toLowerCase (toLowerCase s) = toLowerCase s) (calls : List Call)
    (h : ∀ c ∈ calls, c.keepsEmail = true) :
    EmailsAreStrings (runCalls toLowerCase (File.parsed []) calls).users ∧
      EmailsUnique toLowerCase (runCalls toLowerCase (File.parsed []) calls).users := by
  have key : ∀ (cs : List Call) (file : File), (∀ c ∈ cs, c.keepsEmail = true) →
      EmailsAreStrings file.users → EmailsUnique toLowerCase file.users →
      EmailsAreStrings (runCalls toLowerCase file cs).users ∧
        EmailsUnique toLowerCase (runCalls toLowerCase file cs).users := by
    intro cs
    induction cs with
    | nil => intro file _ hs hq; exact ⟨hs, hq⟩
    | cons c rest ih =>
      intro file hc hs hq
      have hstep : EmailsAreStrings (Call.run toLowerCase file c).users ∧
          EmailsUnique toLowerCase (Call.run toLowerCase file c).users := by
        cases c with
        | create env userData =>
          exact createUser_keeps_unique toLowerCase hidem env file userData hs hq
        | update env id updateData =>
          have hk := hc _ (List.mem_cons_self _ _)
          simp only [Call.keepsEmail, Bool.not_eq_true'] at hk
          exact updateUser_keeps_unique toLowerCase env file id updateData hk hs hq
      simp only [runCalls, List.foldl_cons]
      exact ih (Call.run toLowerCase file c) (fun c' hc' => hc c' (List.mem_cons_of_mem _ hc'))
        hstep.1 hstep.2
  exact key calls (File.parsed []) h (fun u hu => by cases hu) List.Pairwise.nil

/-- Witness for C1: two registrations, a third with a case variant of the second email,
then a rename; the file ends with two records. -/
theorem emails_unique_invariant_witness :
    (∀ s, asciiToLowerCase (asciiToLowerCase s) = asciiToLowerCase s) ∧
    (∀ c ∈ [ Call.create envOk [("email", JVal.str "a@x.com")],
             Call.create envLater candidateB,
             Call.create envLater [("email", JVal.str "b@X.com")],
             Call.update envLater (JVal.str "1700000000000i") [("name", JVal.str "C")] ],
        c.keepsEmail = true) ∧
    (runCalls asciiToLowerCase (File.parsed [])
      [ Call.create envOk [("email", JVal.str "a@x.com")],
        Call.create envLater candidateB,
        Call.create envLater [("email", JVal.str "b@X.com")],
        Call.update envLater (JVal.str "1700000000000i")
          [("name", JVal.str "C")] ]).users.length = 2 ∧
    EmailsAreStrings (runCalls asciiToLowerCase (File.parsed [])
      [ Call.create envOk [("email", JVal.str "a@x.com")],
        Call.create envLater candidateB,
        Call.create envLater [("email", JVal.str "b@X.com")],
        Call.update envLater (JVal.str "1700000000000i")
          [("name", JVal.str "C")] ]).users ∧
    EmailsUnique asciiToLowerCase (runCalls asciiToLowerCase (File.parsed [])
      [ Call.create envOk [("email", JVal.str "a@x.com")],
        Call.create envLater candidateB,
        Call.create envLater [("email", JVal.str "b@X.com")],
        Call.update envLater (JVal.str "1700000000000i")
          [("name", JVal.str "C")] ]).users :=
  ⟨asciiToLowerCase_idem, by decide, by decide,
    emails_unique_invariant asciiToLowerCase asciiToLowerCase_idem _ (by decide)⟩

/-! ## Tokens and the middleware -/

theorem generateToken_payload (secret : String) (userId email : JVal) (t : Nat) :
    (generateToken jsonwebtoken secret t userId email).payload =
      Obj.set "exp" (JVal.num (Int.ofNat (t / 1000) + 86400))
        (Obj.set "iat" (JVal.num (Int.ofNat (t / 1000)))
          [ ("userId", userId), ("email", email),
            ("iat", JVal.num (Int.ofNat (t / 1000))) ]) ∧
    (generateToken jsonwebtoken secret t userId email).key = secret := by
  simp [generateToken, jsonwebtoken, Obj.get, JWT_EXPIRES_IN, Span.toSeconds]

theorem jsonwebtoken_verify (token : Jws) (secret : String) (clock : Nat) :
    jsonwebtoken.verify token secret clock =
      if token.key ≠ secret then Except.error JwtError.invalidSignature
      else
        match Obj.get "exp" token.payload with
        | JVal.num exp =>
          if Int.ofNat (clock / 1000) ≥ exp then Except.error JwtError.expired
          else Except.ok token.payload
        | _ => Except.ok token.payload := rfl

/-- C7: the token that `generateToken` produces at time `t` (milliseconds) carries the
given `userId` and `email`, `iat = floor(t / 1000)` and `exp = iat + 86400`;
`verifyToken` with the same key returns the token's claim, with that `userId` and
`email`, at every time before `exp` seconds, and throws 'Invalid token' at every time
from `exp` seconds on. -/
theorem token_valid_for_24h (secret : String) (userId email : JVal) (t t' : Nat) :
    (generateToken jsonwebtoken secret t userId email).payload.get "userId" = userId ∧
    (generateToken jsonwebtoken secret t userId email).payload.get "email" = email ∧
    (generateToken jsonwebtoken secret t userId email).payload.get "iat" =
      JVal.num (Int.ofNat (t / 1000)) ∧
    (generateToken jsonwebtoken secret t userId email).payload.get "exp" =
      JVal.num (Int.ofNat (t / 1000 + 86400)) ∧
    (t' < (t / 1000 + 86400) * 1000 →
      verifyToken jsonwebtoken secret t' (generateToken jsonwebtoken secret t userId email) =
        Except.ok (generateToken jsonwebtoken secret t userId email).payload) ∧
    ((t / 1000 + 86400) * 1000 ≤ t' →
      verifyToken jsonwebtoken secret t' (generateToken jsonwebtoken secret t userId email) =
        Except.error Err.invalidToken) := by
  obtain ⟨hp, hk⟩ := generateToken_payload secret userId email t
  have hexp : (generateToken jsonwebtoken secret t userId email).payload.get "exp" =
      JVal.num (Int.ofNat (t / 1000) + 86400) := by
    rw [hp]; exact Obj.get_set_self _ _ _
  refine ⟨?_, ?_, ?_, ?_, ?_, ?_⟩
  · rw [hp, Obj.get_set_ne (by decide), Obj.get_set_ne (by decide)]; simp [Obj.get]
  · rw [hp, Obj.get_set_ne (by decide), Obj.get_set_ne (by decide)]; simp [Obj.get]
  · rw [hp, Obj.get_set_ne (by decide), Obj.get_set_self]
  · rw [hexp]; simp
  · intro h
    have h1 : t' / 1000 < t / 1000 + 86400 := (Nat.div_lt_iff_lt_mul (by decide)).mpr h
    have h2 : ¬ (Int.ofNat (t' / 1000) ≥ Int.ofNat (t / 1000) + 86400) := by
      simp only [Int.ofNat_eq_coe]; omega
    simp only [verifyToken, jsonwebtoken_verify, hk, hexp, ne_eq, not_true_eq_false,
      if_false, h2]
  · intro h
    have h1 : t / 1000 + 86400 ≤ t' / 1000 := (Nat.le_div_iff_mul_le (by decide)).mpr h
    have h2 : Int.ofNat (t' / 1000) ≥ Int.ofNat (t / 1000) + 86400 := by
      simp only [Int.ofNat_eq_coe]; omega
    simp only [verifyToken, jsonwebtoken_verify, hk, hexp, ne_eq, not_true_eq_false,
      if_false, h2, if_true]

/-- Witness for C7: a token issued at 1700000000000 ms, checked one millisecond before
and one millisecond after its expiry. -/
theorem token_valid_for_24h_witness :
    (1700086399999 < (1700000000000 / 1000 + 86400) * 1000 ∧
      verifyToken jsonwebtoken "k" 1700086399999
          (generateToken jsonwebtoken "k" 1700000000000 (JVal.str "1700000000000i")
            (JVal.str "a@x.com")) =
        Except.ok (generateToken jsonwebtoken "k" 1700000000000 (JVal.str "1700000000000i")
            (JVal.str "a@x.com")).payload) ∧
    ((1700000000000 / 1000 + 86400) * 1000 ≤ 1700086400001 ∧
      verifyToken jsonwebtoken "k" 1700086400001
          (generateToken jsonwebtoken "k" 1700000000000 (JVal.str "1700000000000i")
            (JVal.str "a@x.com")) =
        Except.error Err.invalidToken) :=
  ⟨⟨by decide, (token_valid_for_24h "k" (JVal.str "1700000000000i") (JVal.str "a@x.com")
      1700000000000 1700086399999).2.2.2.2.1 (by decide)⟩,
   ⟨by decide, (token_valid_for_24h "k" (JVal.str "1700000000000i") (JVal.str "a@x.com")
      1700000000000 1700086400001).2.2.2.2.2 (by decide)⟩⟩

/-- C8: for every token library and every `Authorization` header, `authenticateToken`
answers 401 'Access token required' without calling `next` when the header is absent
or its second space-separated part is absent or empty; otherwise it answers 403
'Invalid or expired token' without calling `next` when `verifyToken` rejects that
part; otherwise it stores the decoded claim in `req.user`, calls `next` once and sends
no reply. -/
theorem authenticateToken_outcomes (jwt : Jwt String) (secret : String) (now : Nat)
    (authHeader : Option String) :
    ((authHeader = none ∨
        ∃ h, authHeader = some h ∧ ∀ t, (split h ' ')[1]? = some t → t = "") →
      authenticateToken jwt secret now authHeader =
        { response := some ⟨401, false, "Access token required"⟩,
          user := none, nextCalls := 0 }) ∧
    (∀ h t, authHeader = some h → (split h ' ')[1]? = some t → t ≠ "" →
      isFailure (verifyToken jwt secret now t) = true →
      authenticateToken jwt secret now authHeader =
        { response := some ⟨403, false, "Invalid or expired token"⟩,
          user := none, nextCalls := 0 }) ∧
    (∀ h t decoded, authHeader = some h → (split h ' ')[1]? = some t → t ≠ "" →
      verifyToken jwt secret now t = Except.ok decoded →
      authenticateToken jwt secret now authHeader =
        { response := none, user := some decoded, nextCalls := 1 }) := by
  refine ⟨?_, ?_, ?_⟩
  · rintro (rfl | ⟨h, rfl, hpart⟩)
    · simp [authenticateToken, extractToken, tokenMissing]
    · have hm : tokenMissing (extractToken (some h)) = true := by
        unfold extractToken
        by_cases he : h = ""
        · simp [he, tokenMissing]
        · simp only [he, if_false]
          cases hs : (split h ' ')[1]? with
          | none => rfl
          | some t => simp [tokenMissing, hpart t hs]
      simp [authenticateToken, hm]
  · rintro h t rfl hs hne hfail
    have he : h ≠ "" := by
      rintro rfl
      simp [split, splitAux] at hs
    have hx : extractToken (some h) = some t := by simp [extractToken, he, hs]
    have hm : tokenMissing (some t) = false := by simp [tokenMissing, hne]
    cases hv : verifyToken jwt secret now t with
    | ok d => rw [hv] at hfail; cases hfail
    | error e => simp [authenticateToken, hx, hm, hv]
  · rintro h t decoded rfl hs hne hv
    have he : h ≠ "" := by
      rintro rfl
      simp [split, splitAux] at hs
    have hx : extractToken (some h) = some t := by simp [extractToken, he, hs]
    have hm : tokenMissing (some t) = false := by simp [tokenMissing, hne]
    simp [authenticateToken, hx, hm, hv]

/-- Witness for C8: a header without a token, one with a rejected token and one with an
accepted token, against a library that accepts only the token `good`. -/
theorem authenticateToken_outcomes_witness :
    authenticateToken toyJwt "k" 0 (some "Bearer") =
        { response := some ⟨401, false, "Access token required"⟩,
          user := none, nextCalls := 0 } ∧
    authenticateToken toyJwt "k" 0 (some "Bearer bad") =
        { response := some ⟨403, false, "Invalid or expired token"⟩,
          user := none, nextCalls := 0 } ∧
    authenticateToken toyJwt "k" 0 (some "Bearer good") =
        { response := none, user := some [("userId", JVal.str "1")], nextCalls := 1 } :=
  ⟨(authenticateToken_outcomes toyJwt "k" 0 (some "Bearer")).1
      (Or.inr ⟨"Bearer", rfl, by decide⟩),
   (authenticateToken_outcomes toyJwt "k" 0 (some "Bearer bad")).2.1 "Bearer bad" "bad" rfl
      (by decide) (by decide) (by decide),
   (authenticateToken_outcomes toyJwt "k" 0 (some "Bearer good")).2.2 "Bearer good" "good"
      [("userId", JVal.str "1")] rfl (by decide) (by decide) rfl⟩

end AuthBackend
